import Mathlib

/-
Verification of the "Scythes" add-on against its natural-language
specification.

The JavaScript sources are shallowly embedded: JS numbers are modelled as
exact rationals (ℚ) for world coordinates and as integers (ℤ) for item
quantities and block coordinates; `Math.random()` is modelled as an
explicit tape of rationals in [0, 1) consumed left to right; host-API
mutations (container `addItem`, `spawnItem`, `setType`, sound playback,
`console.warn`) are recorded in an explicit effect trace.
-/

namespace Scythes

/-- An integer block-grid position (the coordinates of a `Block`). -/
structure Pos3 where
  x : Int
  y : Int
  z : Int
  deriving DecidableEq, Repr

/-- Embeds `classes/Vector3.js`: a plain (x, y, z) triple of numbers. -/
structure Vector3 where
  x : ℚ
  y : ℚ
  z : ℚ
  deriving DecidableEq, Repr

/-- Embeds `vectorUtils.js` `addVectors`: componentwise sum, returning a new
vector.  (The JS argument-presence check cannot fail for well-typed inputs.)
The source adds IEEE-754 doubles; this embedding idealizes that as exact
rational addition, so it is used only where rounding is not load-bearing
(integer-valued offsets such as the sweep's above-actor cell). -/
def addVectors (vector1 vector2 : Vector3) : Vector3 :=
  ⟨vector1.x + vector2.x, vector1.y + vector2.y, vector1.z + vector2.z⟩

/-- Embeds `vectorUtils.js` `subtractVectors`: componentwise difference.
The source subtracts IEEE-754 doubles; this embedding idealizes that as
exact rational subtraction and proves no exactness property about it. -/
def subtractVectors (vector1 vector2 : Vector3) : Vector3 :=
  ⟨vector1.x - vector2.x, vector1.y - vector2.y, vector1.z - vector2.z⟩

/-- Embeds `vectorUtils.js` `areVectorsEqual`: componentwise equality. -/
def areVectorsEqual (vector1 vector2 : Vector3) : Bool :=
  vector1.x == vector2.x && vector1.y == vector2.y && vector1.z == vector2.z

/-- Embeds `vectorUtils.js` `floorVector`: floors every component. -/
def floorVector (vector : Vector3) : Vector3 :=
  ⟨(⌊vector.x⌋ : ℚ), (⌊vector.y⌋ : ℚ), (⌊vector.z⌋ : ℚ)⟩

/-- Modelled from the spec: the host's ambient random source
(`Math.random()`), "this function is pure/stateless apart from consuming the
ambient random source".  A tape of pre-drawn values together with a cursor;
each call to `Math.random()` reads the value under the cursor and advances
it. -/
structure RandTape where
  vals : ℕ → ℚ
  cursor : ℕ

/-- Modelled from the spec: one call of the host's `Math.random()`. -/
def drawRand (t : RandTape) : ℚ × RandTape :=
  (t.vals t.cursor, ⟨t.vals, t.cursor + 1⟩)

/-- A well-formed random tape only produces values in [0, 1), as
`Math.random()` does. -/
def RandWF (vals : ℕ → ℚ) : Prop :=
  ∀ n, 0 ≤ vals n ∧ vals n < 1

/-- Embeds the bonus-trial `for` loop of `ItemUtils.js` `calculateDrops`:
each remaining trial draws one random value and counts a success when it is
below 8/15. -/
def calculateDropsLoop : ℕ → Int × RandTape → Int × RandTape
  | 0, acc => acc
  | n + 1, acc =>
    let d := drawRand acc.2
    calculateDropsLoop n (if d.1 < 8 / 15 then acc.1 + 1 else acc.1, d.2)

/-- Embeds `ItemUtils.js` `calculateDrops`: clamp the fortune level to
[0, 3], roll `Math.floor(Math.random() * (clampedFortune + 1)) + 1` initial
drops, then add one drop for each success among `3 + clampedFortune`
Bernoulli trials with success probability 8/15.  Returns the total and the
advanced random tape. -/
def calculateDrops (fortuneLevel : Int) (t : RandTape) : Int × RandTape :=
  let clampedFortune := max 0 (min fortuneLevel 3)
  let d0 := drawRand t
  let initialDrops := ⌊d0.1 * (clampedFortune + 1)⌋ + 1
  let trials := 3 + clampedFortune
  let finalState := calculateDropsLoop trials.toNat (0, d0.2)
  (initialDrops + finalState.1, finalState.2)

/-- The random tape refuting C2 as stated: the first draw is 3/4 and every
later draw is 0 (so all Bernoulli trials succeed). -/
def c2CexTape : RandTape :=
  ⟨fun n => if n = 0 then 3 / 4 else 0, 0⟩

/-- An item stack: type identifier, count, per-type max stack size, and the
fortune level of its enchantable component (`none` when the item is not
enchantable or carries no fortune enchantment). -/
structure ItemStack where
  typeId : String
  amount : Int
  maxAmount : Int
  fortune : Option Int
  deriving DecidableEq, Repr

/-- A container: an ordered list of slots, each holding at most one stack. -/
abbrev Container := List (Option ItemStack)

/-- Embeds `InventoryLibrary(1.1.2).js` `getAvailableSpaceForItemStack`:
walk the slots, counting a full stack for every empty slot (unless only
existing stacks are considered) and the remaining room
`maxAmount - amount` for every slot holding the same item type. -/
def getAvailableSpaceForItemStack (slots : Container) (itemstack : ItemStack)
    (onlyConsiderExistingStacks : Bool) : Int :=
  match slots with
  | [] => 0
  | slot :: rest =>
    let restSpace := getAvailableSpaceForItemStack rest itemstack onlyConsiderExistingStacks
    match slot with
    | none =>
      if onlyConsiderExistingStacks then restSpace else itemstack.maxAmount + restSpace
    | some currentSlotItem =>
      if currentSlotItem.typeId = itemstack.typeId then
        (itemstack.maxAmount - currentSlotItem.amount) + restSpace
      else restSpace

/-- Modelled from the spec: first phase of the host container's `addItem`
(the world/inventory mutate API is host-provided), topping up existing
stacks of the same item type up to the max stack size, slot by slot. -/
def fillExistingStacks (itemId : String) (maxCount : Int) :
    Container → Int → Container × Int
  | [], quantity => ([], quantity)
  | slot :: rest, quantity =>
    match slot with
    | some s =>
      if s.typeId = itemId then
        let put := max 0 (min quantity (maxCount - s.amount))
        let r := fillExistingStacks itemId maxCount rest (quantity - put)
        (some ⟨s.typeId, s.amount + put, s.maxAmount, s.fortune⟩ :: r.1, r.2)
      else
        let r := fillExistingStacks itemId maxCount rest quantity
        (some s :: r.1, r.2)
    | none =>
      let r := fillExistingStacks itemId maxCount rest quantity
      (none :: r.1, r.2)

/-- Modelled from the spec: second phase of the host container's `addItem`,
placing what is left into empty slots, one new stack per slot. -/
def fillEmptySlots (itemId : String) (maxCount : Int) :
    Container → Int → Container × Int
  | [], quantity => ([], quantity)
  | slot :: rest, quantity =>
    match slot with
    | none =>
      if 0 < quantity then
        let put := min quantity maxCount
        let r := fillEmptySlots itemId maxCount rest (quantity - put)
        (some ⟨itemId, put, maxCount, none⟩ :: r.1, r.2)
      else
        let r := fillEmptySlots itemId maxCount rest quantity
        (none :: r.1, r.2)
    | some s =>
      let r := fillEmptySlots itemId maxCount rest quantity
      (some s :: r.1, r.2)

/-- Modelled from the spec: the host container's `addItem`, which places the
given stack into the container, existing stacks of the same type first and
then empty slots. -/
def addItem (slots : Container) (itemStack : ItemStack) : Container :=
  let r1 := fillExistingStacks itemStack.typeId itemStack.maxAmount slots itemStack.amount
  (fillEmptySlots itemStack.typeId itemStack.maxAmount r1.1 r1.2).1

/-- Observable host-API side effects performed by the harvesting code:
container insertions, world item spawns, block type writes, sounds, and the
missing-support console warning. -/
inductive Effect where
  | addedToContainer (itemId : String) (quantity : Int)
  | spawnedItem (pos : Pos3) (itemId : String) (quantity : Int)
  | setTypeEffect (pos : Pos3) (typeId : String)
  | playedSound (soundId : String)
  | warnedNoSupport (typeId : String)
  deriving DecidableEq, Repr

/-- Result of `giveEntityItems`: the mutated container (when the entity has
one), the returned remainder, and the host calls performed. -/
structure GiveResult where
  container : Option Container
  remainder : Int
  effects : List Effect
  deriving DecidableEq, Repr

/-- Embeds `InventoryLibrary(1.1.2).js` `giveEntityItems`: with no
container, return the full stack amount as the remainder; otherwise compute
the available space, add `min(amount, availableSpace)` items when that is
positive, and return the rest. -/
def giveEntityItems (container : Option Container) (itemStack : ItemStack) :
    GiveResult :=
  match container with
  | none => ⟨none, itemStack.amount, []⟩
  | some c =>
    let availableSpace := getAvailableSpaceForItemStack c itemStack false
    let itemsToAdd := min itemStack.amount availableSpace
    if 0 < itemsToAdd then
      ⟨some (addItem c ⟨itemStack.typeId, itemsToAdd, itemStack.maxAmount, none⟩),
        itemStack.amount - itemsToAdd,
        [Effect.addedToContainer itemStack.typeId itemsToAdd]⟩
    else
      ⟨some c, itemStack.amount - itemsToAdd, []⟩

/-- Total quantity of the given item type inserted into the container over
an effect trace. -/
def addedTotal (itemId : String) : List Effect → Int
  | [] => 0
  | Effect.addedToContainer otherId q :: rest =>
      (if otherId = itemId then q else 0) + addedTotal itemId rest
  | _ :: rest => addedTotal itemId rest

/-- Total quantity of the given item type handed to the player's container
or spawned in the world over an effect trace. -/
def givenTotal (itemId : String) : List Effect → Int
  | [] => 0
  | Effect.addedToContainer otherId q :: rest =>
      (if otherId = itemId then q else 0) + givenTotal itemId rest
  | Effect.spawnedItem _ otherId q :: rest =>
      (if otherId = itemId then q else 0) + givenTotal itemId rest
  | _ :: rest => givenTotal itemId rest

/-- Host invariant on containers as maintained by the game: every stored
stack has a nonnegative count no greater than its max stack size, and every
item involved in harvesting stacks to 64. -/
def CWF (c : Container) : Prop :=
  ∀ s : ItemStack, some s ∈ c → 0 ≤ s.amount ∧ s.amount ≤ 64 ∧ s.maxAmount = 64

/-- Host invariant relating a container to a requested stack: the stack's
max size is nonnegative and no stored stack of the same type exceeds it. -/
def MatchWF (slots : Container) (itemstack : ItemStack) : Prop :=
  0 ≤ itemstack.maxAmount ∧
  ∀ s : ItemStack, some s ∈ slots → s.typeId = itemstack.typeId →
    0 ≤ s.amount ∧ s.amount ≤ itemstack.maxAmount

/-- Embeds `ItemUtils.js` `isItemSeed`: membership in the fixed seed-id
list (carrots and potatoes replant themselves, so they count as seeds). -/
def isItemSeed (itemId : String) : Bool :=
  itemId ∈ ["minecraft:wheat_seeds", "minecraft:beetroot_seeds",
    "minecraft:carrot", "minecraft:potato"]

/-- Embeds `ItemUtils.js` `getFortuneLevel`: 0 when the item has no
enchantable component or no fortune enchantment, otherwise the level. -/
def getFortuneLevel (itemStack : ItemStack) : Int :=
  match itemStack.fortune with
  | none => 0
  | some level => level

/-- The fortune level `getDropCount` computes from the held item: 0 when no
item is held, otherwise `getFortuneLevel` of the item. -/
def heldFortuneLevel (itemStack : Option ItemStack) : Int :=
  match itemStack with
  | some i => getFortuneLevel i
  | none => 0

/-- Embeds `ItemUtils.js` `getDropCount`: fortune level of the held item
(0 when no item is held), then `calculateDrops`. -/
def getDropCount (itemStack : Option ItemStack) (t : RandTape) :
    Int × RandTape :=
  let fortuneLevel :=
    match itemStack with
    | some i => getFortuneLevel i
    | none => 0
  calculateDrops fortuneLevel t

/-- Embeds `main.js` `getRandomInt`:
`Math.floor(Math.random() * (max - min + 1)) + min`. -/
def getRandomInt (lowerBound upperBound : Int) (t : RandTape) :
    Int × RandTape :=
  let d := drawRand t
  (⌊d.1 * ((upperBound : ℚ) - lowerBound + 1)⌋ + lowerBound, d.2)

/-- A block's data: its type identifier and its permutation's states. -/
structure BlockData where
  typeId : String
  states : List (String × Int)
  deriving DecidableEq, Repr

/-- The dimension's block store: an association list from grid position to
block data, newest entry first (`none` models an unretrievable block). -/
abbrev WorldBlocks := List (Pos3 × BlockData)

/-- Modelled from the spec: the host's `dimension.getBlock` at an integer
grid position. -/
def blockAt : WorldBlocks → Pos3 → Option BlockData
  | [], _ => none
  | entry :: rest, p => if entry.1 = p then some entry.2 else blockAt rest p

/-- Modelled from the spec: the host's `block.setType`, which replaces the
block's type and resets its states. -/
def setType (w : WorldBlocks) (p : Pos3) (typeId : String) : WorldBlocks :=
  (p, ⟨typeId, []⟩) :: w

/-- Embeds `InventoryLibrary(1.1.2).js` `getBlockState`: the value of the
named state on the block's permutation, or `undefined` (`none`). -/
def getBlockState (block : BlockData) (stateId : String) : Option Int :=
  (block.states.find? (fun st => st.1 == stateId)).map (fun st => st.2)

/-- Embeds `InventoryLibrary(1.1.2).js` `isBlockCrop`: membership in the
fixed crop-id list. -/
def isBlockCrop (block : BlockData) : Bool :=
  block.typeId ∈ ["minecraft:wheat", "minecraft:carrots",
    "minecraft:potatoes", "minecraft:beetroot"]

/-- Embeds `InventoryLibrary(1.1.2).js` `isCropRipe`: the `growth` state
loosely compared with 7 (an absent state compares unequal). -/
def isCropRipe (crop : BlockData) : Bool :=
  match getBlockState crop "growth" with
  | some growthStage => growthStage == 7
  | none => false

/-- Embeds `InventoryLibrary(1.1.2).js` `getCropDropItemId`: the item id(s)
a crop drops, per its type. -/
def getCropDropItemId (crop : BlockData) : List String :=
  if crop.typeId = "minecraft:carrots" then ["minecraft:carrot"]
  else if crop.typeId = "minecraft:potatoes" then ["minecraft:potato"]
  else if crop.typeId = "minecraft:wheat" then
    ["minecraft:wheat", "minecraft:wheat_seeds"]
  else if crop.typeId = "minecraft:beetroot" then
    ["minecraft:beetroot", "minecraft:beetroot_seeds"]
  else []

/-- The world-facing state a harvest handler reads and mutates: the block
store, the player's inventory container, and the player's held item. -/
structure WorldState where
  blocks : WorldBlocks
  inv : Container
  held : Option ItemStack
  deriving Repr

/-- Embeds the `forEach` body of `InventoryLibrary(1.1.2).js`
`harvestCrop`: sample a drop count, subtract one for seed items, and when
positive give the items to the player, spawning any remainder at the
crop. -/
def harvestCropDrop (scythe : Option ItemStack) (cropPos : Pos3)
    (acc : WorldState × List Effect × RandTape) (itemId : String) :
    WorldState × List Effect × RandTape :=
  let st := acc.1
  let dq := getDropCount scythe acc.2.2
  let dropQuantity := if isItemSeed itemId then dq.1 - 1 else dq.1
  if 0 < dropQuantity then
    let g := giveEntityItems (some st.inv) ⟨itemId, dropQuantity, 64, none⟩
    let st1 : WorldState := ⟨st.blocks, g.container.getD st.inv, st.held⟩
    if 0 < g.remainder then
      (st1, acc.2.1 ++ g.effects ++ [Effect.spawnedItem cropPos itemId g.remainder],
        dq.2)
    else
      (st1, acc.2.1 ++ g.effects, dq.2)
  else (st, acc.2.1, dq.2)

/-- Models JavaScript `str.split(":")[1]` on strings with one colon: the
characters after the first colon. -/
def splitColonTail : List Char → List Char
  | [] => []
  | c :: rest => if c = ':' then rest else splitColonTail rest

/-- Embeds `crop.typeId.split(":")[1]` from `harvestCrop`. -/
def typeIdSuffix (typeId : String) : String :=
  ⟨splitColonTail typeId.data⟩

/-- Embeds `InventoryLibrary(1.1.2).js` `harvestCrop`: when the crop is
ripe, handle every drop id and finally replace the crop with its
`djc:fake_` variant; otherwise do nothing. -/
def harvestCrop (st : WorldState) (cropPos : Pos3) (cropData : BlockData)
    (t : RandTape) : WorldState × List Effect × RandTape :=
  let scythe := st.held
  let cropName := typeIdSuffix cropData.typeId
  if isCropRipe cropData = false then (st, [], t)
  else
    let dropItemIds := getCropDropItemId cropData
    let r := dropItemIds.foldl (harvestCropDrop scythe cropPos) (st, [], t)
    (⟨setType r.1.blocks cropPos ("djc:fake_" ++ cropName), r.1.inv, r.1.held⟩,
      r.2.1 ++ [Effect.setTypeEffect cropPos ("djc:fake_" ++ cropName)], r.2.2)

/-- Embeds the `while` loop of `InventoryLibrary(1.1.2).js`
`getStackedPlant`: march upward from one above the bottom block while the
block matches the plant type; the fuel counts the remaining Y levels up to
the maximum build height 319 (the loop stops before reading any block above
it). -/
def stackedPlantWalk (w : WorldBlocks) (id : String) (x z : Int) :
    Int → ℕ → List Pos3
  | _, 0 => []
  | y, fuel + 1 =>
    match blockAt w ⟨x, y, z⟩ with
    | none => []
    | some currentBlock =>
      if currentBlock.typeId = id then
        ⟨x, y, z⟩ :: stackedPlantWalk w id x z (y + 1) fuel
      else []

/-- Embeds `InventoryLibrary(1.1.2).js` `getStackedPlant`: collect the
blocks above the given bottom plant block whose type matches it, walking up
one cell at a time while Y stays within the maximum build height (319). -/
def getStackedPlant (w : WorldBlocks) (bottomPos : Pos3)
    (bottomData : BlockData) : List Pos3 :=
  stackedPlantWalk w bottomData.typeId bottomPos.x bottomPos.z
    (bottomPos.y + 1) (319 - bottomPos.y).toNat

/-- Embeds `InventoryLibrary(1.1.2).js` `getSupportBlock`: the host's
downward raycast result is passed in; on a miss log a warning and return
`undefined`, otherwise return the hit block. -/
def getSupportBlock (startTypeId : String) (rayResult : Option Pos3) :
    Option Pos3 × List Effect :=
  match rayResult with
  | none => (none, [Effect.warnedNoSupport startTypeId])
  | some hit => (some hit, [])

/-- Embeds `InventoryLibrary(1.1.2).js` `isBlockWithinDistance`: squared
distance between block location and player location compared with the
squared maximum distance. -/
def isBlockWithinDistance (blockPos : Pos3) (playerLocation : Vector3)
    (distance : ℚ) : Bool :=
  decide (((blockPos.x : ℚ) - playerLocation.x) ^ 2 +
      ((blockPos.y : ℚ) - playerLocation.y) ^ 2 +
      ((blockPos.z : ℚ) - playerLocation.z) ^ 2 ≤ distance ^ 2)

/-- Outcome of a stacked-plant harvest: final state, host-call trace,
whether a JS exception aborted the handler, and the advanced random tape. -/
structure SugarcaneRun where
  st : WorldState
  effects : List Effect
  threw : Bool
  tape : RandTape

/-- Embeds `InventoryLibrary(1.1.2).js` `harvestSinglePlant`: give
`1 + getRandomInt(0, fortuneLevel)` drops to the player (spawning any
remainder at the block), then replace the block with the fake variant when
within 10 blocks of the player, or with air otherwise.  Reading the
fortune level of an empty hand throws. -/
def harvestSinglePlant (playerLocation : Vector3) (acc : SugarcaneRun)
    (blockPos : Pos3) (dropId fakeBlockId : String) : SugarcaneRun :=
  match acc.st.held with
  | none => ⟨acc.st, acc.effects, true, acc.tape⟩
  | some held =>
    let fortuneLevel := getFortuneLevel held
    let d := getRandomInt 0 fortuneLevel acc.tape
    let g := giveEntityItems (some acc.st.inv) ⟨dropId, 1 + d.1, 64, none⟩
    let st1 : WorldState := ⟨acc.st.blocks, g.container.getD acc.st.inv, acc.st.held⟩
    let effects1 := acc.effects ++ g.effects ++
      (if 0 < g.remainder then [Effect.spawnedItem blockPos dropId g.remainder]
        else [])
    if isBlockWithinDistance blockPos playerLocation 10 then
      ⟨⟨setType st1.blocks blockPos fakeBlockId, st1.inv, st1.held⟩,
        effects1 ++ [Effect.setTypeEffect blockPos fakeBlockId], false, d.2⟩
    else
      ⟨⟨setType st1.blocks blockPos "minecraft:air", st1.inv, st1.held⟩,
        effects1 ++ [Effect.setTypeEffect blockPos "minecraft:air"], false, d.2⟩

/-- Embeds `InventoryLibrary(1.1.2).js` `harvestSugarcane`: find the
support block by the downward raycast (host result passed in); a miss means
`supportBlock.above()` is evaluated on `undefined`, which throws before any
block is harvested.  Otherwise collect the column above the support block
and harvest each collected block. -/
def harvestSugarcane (st : WorldState) (blockData : BlockData)
    (rayResult : Option Pos3) (playerLocation : Vector3) (t : RandTape) :
    SugarcaneRun :=
  let sb := getSupportBlock blockData.typeId rayResult
  match sb.1 with
  | none => ⟨st, sb.2, true, t⟩
  | some supportPos =>
    let bottomPos : Pos3 := ⟨supportPos.x, supportPos.y + 1, supportPos.z⟩
    match blockAt st.blocks bottomPos with
    | none => ⟨st, sb.2, true, t⟩
    | some bottomData =>
      let sugarcaneBlocks := getStackedPlant st.blocks bottomPos bottomData
      sugarcaneBlocks.foldl (fun acc p =>
        if acc.threw then acc
        else harvestSinglePlant playerLocation acc p "minecraft:sugar_cane"
          "djc:fake_sugar_cane")
        ⟨st, sb.2, false, t⟩

/-- Modelled from the spec: the host JavaScript `Math` library used by the
sweep (`Math.PI`, `Math.cos`, `Math.sin`, `Math.sqrt`). -/
structure JsMathLib where
  pi : ℚ
  cosFn : ℚ → ℚ
  sinFn : ℚ → ℚ
  sqrtFn : ℚ → ℚ

/-- Modelled from the spec: JavaScript `Math.round`, which rounds half
toward positive infinity. -/
def jsRound (q : ℚ) : Int := ⌊q + 1 / 2⌋

/-- Embeds the angle `for` loop header of `getBlocksInSweep`:
`angle = -arcWidth/2; angle <= arcWidth/2; angle += 1`. -/
def sweepAngles (arcWidth : ℚ) : List ℚ :=
  (List.range (⌊arcWidth⌋ + 1).toNat).map (fun i => -(arcWidth / 2) + i)

/-- Embeds `InventoryLibrary(1.1.2).js` `getBlock` (the host resolves a
float location to the containing grid cell). -/
def getBlock (blockLocation : Vector3) : Pos3 :=
  ⟨⌊blockLocation.x⌋, ⌊blockLocation.y⌋, ⌊blockLocation.z⌋⟩

/-- Embeds `InventoryLibrary(1.1.2).js` `getBlocksInSweep`: floor the
player's location, normalize the horizontal view direction, then for every
integer distance 1..arcRange and every whole-degree angle in
[-arcWidth/2, arcWidth/2] rotate, scale, round, and collect the cell at
foot level and one above (skipping coordinate duplicates); finally append
the cell directly above the actor. -/
def getBlocksInSweep (m : JsMathLib) (playerLocation viewDirection : Vector3)
    (arcWidth : ℚ) (arcRange : ℕ) : List Pos3 :=
  let centerX := ⌊playerLocation.x⌋
  let centerY := ⌊playerLocation.y⌋
  let centerZ := ⌊playerLocation.z⌋
  let horizontalMagnitude :=
    m.sqrtFn (viewDirection.x ^ 2 + viewDirection.z ^ 2)
  let hx := viewDirection.x / horizontalMagnitude
  let hz := viewDirection.z / horizontalMagnitude
  let blocks := (List.range arcRange).foldl (fun blocks (d : ℕ) =>
    let distance : ℚ := (d : ℚ) + 1
    (sweepAngles arcWidth).foldl (fun blocks angle =>
      let angleRadians := angle * (m.pi / 180)
      let sweepX := hx * m.cosFn angleRadians - hz * m.sinFn angleRadians
      let sweepZ := hx * m.sinFn angleRadians + hz * m.cosFn angleRadians
      let targetX := centerX + jsRound (sweepX * distance)
      let targetZ := centerZ + jsRound (sweepZ * distance)
      let currentLevel : Pos3 := ⟨targetX, centerY, targetZ⟩
      let upperLevel : Pos3 := ⟨targetX, centerY + 1, targetZ⟩
      let isCurrentDuplicate := blocks.contains currentLevel
      let isUpperDuplicate := blocks.contains upperLevel
      let blocks1 := if isCurrentDuplicate then blocks else blocks ++ [currentLevel]
      if isUpperDuplicate then blocks1 else blocks1 ++ [upperLevel]) blocks)
    ([] : List Pos3)
  blocks ++ [getBlock (addVectors playerLocation ⟨0, 1, 0⟩)]

/-- An item's durability component. -/
structure ItemDurability where
  damage : Int
  maxDurability : Int
  deriving DecidableEq, Repr

/-- The held tool as seen by the wear logic: its type id and durability. -/
structure ScytheTool where
  typeId : String
  durability : ItemDurability
  deriving DecidableEq, Repr

/-- What happens to the held slot after a harvest/destroy pass. -/
inductive HeldSlotResult where
  | unchanged
  | clearedWithBreakSound
  | replacedWith (tool : ScytheTool)
  deriving DecidableEq, Repr

/-- Embeds the durability section of
`OnUseOnScytheHarvest.js` `onUseOn`: when the pass processed at least one
block, clone the item; if one more point of damage would exceed max
durability, clear the held slot and play the break sound, otherwise write
the clone back with damage incremented. -/
def onUseOnScytheWear (harvestAmount : Int) (scythe : ScytheTool) :
    HeldSlotResult :=
  if 0 < harvestAmount then
    if scythe.durability.damage + 1 > scythe.durability.maxDurability then
      HeldSlotResult.clearedWithBreakSound
    else
      HeldSlotResult.replacedWith
        ⟨scythe.typeId, ⟨scythe.durability.damage + 1,
          scythe.durability.maxDurability⟩⟩
  else HeldSlotResult.unchanged

/-- Embeds the durability section of the `entityHitBlock` handler in
`main.js` (which runs only for non-wooden scythes). -/
def entityHitBlockWear (processedBlockCount : Int) (heldItem : ScytheTool) :
    HeldSlotResult :=
  if heldItem.typeId ≠ "djc:wooden_scythe" then
    if 0 < processedBlockCount then
      if heldItem.durability.damage + 1 > heldItem.durability.maxDurability then
        HeldSlotResult.clearedWithBreakSound
      else
        HeldSlotResult.replacedWith
          ⟨heldItem.typeId, ⟨heldItem.durability.damage + 1,
            heldItem.durability.maxDurability⟩⟩
    else HeldSlotResult.unchanged
  else HeldSlotResult.unchanged

/-- The bonus-trial loop of `calculateDrops` adds between 0 and
`trials` extra drops. -/
theorem calculateDropsLoop_bounds (n : ℕ) :
    ∀ (acc : Int) (t : RandTape),
      acc ≤ (calculateDropsLoop n (acc, t)).1 ∧
      (calculateDropsLoop n (acc, t)).1 ≤ acc + n := by
  induction n with
  | zero => intro acc t; simp [calculateDropsLoop]
  | succ m ih =>
      intro acc t
      rw [calculateDropsLoop]
      rcases ih (if (drawRand (acc, t).2).1 < 8 / 15 then (acc, t).1 + 1
        else (acc, t).1) (drawRand (acc, t).2).2 with ⟨h1, h2⟩
      constructor
      · refine le_trans ?_ h1
        split <;> omega
      · refine le_trans h2 ?_
        split <;> omega

/-- Claim C2 (amended): for every fortune level `f` in {0,1,2,3}, the drop
count returned by `calculateDrops(f)` is always in the interval
[1, 4 + 2·f] (not [1, 4 + f]): the base roll contributes 1..(f+1) and the
`3 + f` bonus trials contribute up to `3 + f` more; for `f` outside [0, 3]
the level is clamped to 0 or 3 before the computation.  The count is the sum
of a uniform random integer in [1, clampedFortune + 1] and the number of
successes in `3 + clampedFortune` independent Bernoulli trials with success
probability 8/15. -/
theorem calculateDrops_bounds (fortuneLevel : Int) (t : RandTape)
    (hwf : RandWF t.vals) :
    1 ≤ (calculateDrops fortuneLevel t).1 ∧
    (calculateDrops fortuneLevel t).1 ≤
      4 + 2 * max 0 (min fortuneLevel 3) ∧
    ∃ initial bonus : Int,
      (calculateDrops fortuneLevel t).1 = initial + bonus ∧
      1 ≤ initial ∧ initial ≤ max 0 (min fortuneLevel 3) + 1 ∧
      0 ≤ bonus ∧ bonus ≤ 3 + max 0 (min fortuneLevel 3) := by
  have hcf : (0 : Int) ≤ max 0 (min fortuneLevel 3) := le_max_left 0 _
  have hcf3 : max 0 (min fortuneLevel 3) ≤ 3 := by omega
  set cf := max 0 (min fortuneLevel 3) with hcfdef
  have hr0 : 0 ≤ (drawRand t).1 ∧ (drawRand t).1 < 1 := hwf t.cursor
  have hcfq : (0 : ℚ) ≤ (cf : ℚ) := by exact_mod_cast hcf
  -- bounds for the initial roll
  have hinit_lo : (0 : Int) ≤ ⌊(drawRand t).1 * ((cf : ℚ) + 1)⌋ := by
    apply Int.floor_nonneg.mpr
    apply mul_nonneg hr0.1
    linarith
  have hinit_hi : ⌊(drawRand t).1 * ((cf : ℚ) + 1)⌋ ≤ cf := by
    have hpos : (0 : ℚ) < (cf : ℚ) + 1 := by linarith
    have hlt : (drawRand t).1 * ((cf : ℚ) + 1) < (cf : ℚ) + 1 := by
      have h := mul_lt_mul_of_pos_right hr0.2 hpos
      simpa using h
    have h2 : ⌊(drawRand t).1 * ((cf : ℚ) + 1)⌋ < cf + 1 := by
      apply Int.floor_lt.mpr
      push_cast
      exact hlt
    omega
  -- bounds for the bonus loop
  have hloop := calculateDropsLoop_bounds (3 + cf).toNat 0 (drawRand t).2
  have htn : (((3 + cf).toNat : ℕ) : Int) = 3 + cf := by omega
  constructor
  · show 1 ≤ (calculateDrops fortuneLevel t).1
    simp only [calculateDrops, ← hcfdef]
    omega
  constructor
  · show (calculateDrops fortuneLevel t).1 ≤ 4 + 2 * cf
    simp only [calculateDrops, ← hcfdef]
    omega
  · refine ⟨⌊(drawRand t).1 * ((cf : ℚ) + 1)⌋ + 1,
      (calculateDropsLoop (3 + cf).toNat (0, (drawRand t).2)).1,
      ?_, by omega, by omega, by omega, by omega⟩
    simp only [calculateDrops, ← hcfdef]

/-- Witness for the amended C2 at fortune level 2 and an all-zero tape. -/
theorem calculateDrops_bounds_witness :
    1 ≤ (calculateDrops 2 ⟨fun _ => 0, 0⟩).1 ∧
    (calculateDrops 2 ⟨fun _ => 0, 0⟩).1 ≤ 4 + 2 * max 0 (min 2 3) ∧
    ∃ initial bonus : Int,
      (calculateDrops 2 ⟨fun _ => 0, 0⟩).1 = initial + bonus ∧
      1 ≤ initial ∧ initial ≤ max 0 (min 2 3) + 1 ∧
      0 ≤ bonus ∧ bonus ≤ 3 + max 0 (min 2 3) :=
  calculateDrops_bounds 2 ⟨fun _ => 0, 0⟩ (fun _ => by norm_num)

/-- Counterexample to C2 as stated: at fortune level 1 (with a well-formed
random tape, first draw 3/4, all bonus trials succeeding) `calculateDrops`
returns 6, which lies outside the claimed interval [1, 4 + 1]. -/
theorem calculateDrops_exceeds_claimed_bound :
    RandWF c2CexTape.vals ∧
    (calculateDrops 1 c2CexTape).1 = 6 ∧ ¬ ((calculateDrops 1 c2CexTape).1 ≤ 4 + 1) := by
  have heval : (calculateDrops 1 c2CexTape).1 = 6 := by
    norm_num [calculateDrops, calculateDropsLoop, drawRand, c2CexTape]
  refine ⟨fun n => ?_, heval, by omega⟩
  by_cases h : n = 0
  · norm_num [c2CexTape, h]
  · norm_num [c2CexTape, h]

/-- Claim C8: for every block, `isCropRipe` returns true if and only if the
block's growth-stage state equals exactly 7; it returns false for any other
growth stage and for blocks that have no growth state. -/
theorem isCropRipe_spec (block : BlockData) :
    (isCropRipe block = true ↔ getBlockState block "growth" = some 7) ∧
    (∀ g : Int, getBlockState block "growth" = some g → g ≠ 7 →
      isCropRipe block = false) ∧
    (getBlockState block "growth" = none → isCropRipe block = false) := by
  cases h : getBlockState block "growth" with
  | none => simp [isCropRipe, h]
  | some g =>
      refine ⟨?_, ?_, ?_⟩
      · simp [isCropRipe, h]
      · intro g2 hg2 hne
        simp only [h, Option.some.injEq] at hg2
        subst hg2
        simp [isCropRipe, h, hne]
      · intro hnone
        simp [h] at hnone

/-- Witness for C8 on a ripe wheat block. -/
theorem isCropRipe_spec_witness :
    (isCropRipe ⟨"minecraft:wheat", [("growth", 7)]⟩ = true ↔
      getBlockState ⟨"minecraft:wheat", [("growth", 7)]⟩ "growth" = some 7) ∧
    (∀ g : Int,
      getBlockState ⟨"minecraft:wheat", [("growth", 7)]⟩ "growth" = some g →
      g ≠ 7 → isCropRipe ⟨"minecraft:wheat", [("growth", 7)]⟩ = false) ∧
    (getBlockState ⟨"minecraft:wheat", [("growth", 7)]⟩ "growth" = none →
      isCropRipe ⟨"minecraft:wheat", [("growth", 7)]⟩ = false) :=
  isCropRipe_spec ⟨"minecraft:wheat", [("growth", 7)]⟩

/-- Claim C7: on every multi-harvest or destroy pass with processed count
greater than 0, the held tool's damage is incremented by exactly one; if
`damage + 1` would exceed max durability the item is instead removed with a
break sound and no write-back; when the count is 0 the held item is left
unchanged.  Stated for both the use-on handler and the (non-wooden)
hit-block handler. -/
theorem scytheWear_spec (n : Int) (tool : ScytheTool) :
    (0 < n → tool.durability.damage + 1 > tool.durability.maxDurability →
      onUseOnScytheWear n tool = HeldSlotResult.clearedWithBreakSound ∧
      (tool.typeId ≠ "djc:wooden_scythe" →
        entityHitBlockWear n tool = HeldSlotResult.clearedWithBreakSound)) ∧
    (0 < n → ¬ tool.durability.damage + 1 > tool.durability.maxDurability →
      onUseOnScytheWear n tool = HeldSlotResult.replacedWith
        ⟨tool.typeId,
          ⟨tool.durability.damage + 1, tool.durability.maxDurability⟩⟩ ∧
      (tool.typeId ≠ "djc:wooden_scythe" →
        entityHitBlockWear n tool = HeldSlotResult.replacedWith
          ⟨tool.typeId,
            ⟨tool.durability.damage + 1, tool.durability.maxDurability⟩⟩)) ∧
    (¬ 0 < n →
      onUseOnScytheWear n tool = HeldSlotResult.unchanged ∧
      entityHitBlockWear n tool = HeldSlotResult.unchanged) := by
  refine ⟨fun hn hd => ⟨?_, fun hw => ?_⟩,
    fun hn hd => ⟨?_, fun hw => ?_⟩, fun hn => ⟨?_, ?_⟩⟩ <;>
    simp [onUseOnScytheWear, entityHitBlockWear, hn, *]

/-- Witness for C7 with one processed block and a fresh iron scythe. -/
theorem scytheWear_spec_witness :
    (0 < (1 : Int) → (0 : Int) + 1 > (250 : Int) →
      onUseOnScytheWear 1 ⟨"djc:iron_scythe", ⟨0, 250⟩⟩ =
        HeldSlotResult.clearedWithBreakSound ∧
      ("djc:iron_scythe" ≠ "djc:wooden_scythe" →
        entityHitBlockWear 1 ⟨"djc:iron_scythe", ⟨0, 250⟩⟩ =
          HeldSlotResult.clearedWithBreakSound)) ∧
    (0 < (1 : Int) → ¬ (0 : Int) + 1 > (250 : Int) →
      onUseOnScytheWear 1 ⟨"djc:iron_scythe", ⟨0, 250⟩⟩ =
        HeldSlotResult.replacedWith ⟨"djc:iron_scythe", ⟨0 + 1, 250⟩⟩ ∧
      ("djc:iron_scythe" ≠ "djc:wooden_scythe" →
        entityHitBlockWear 1 ⟨"djc:iron_scythe", ⟨0, 250⟩⟩ =
          HeldSlotResult.replacedWith ⟨"djc:iron_scythe", ⟨0 + 1, 250⟩⟩)) ∧
    (¬ 0 < (1 : Int) →
      onUseOnScytheWear 1 ⟨"djc:iron_scythe", ⟨0, 250⟩⟩ =
        HeldSlotResult.unchanged ∧
      entityHitBlockWear 1 ⟨"djc:iron_scythe", ⟨0, 250⟩⟩ =
        HeldSlotResult.unchanged) :=
  scytheWear_spec 1 ⟨"djc:iron_scythe", ⟨0, 250⟩⟩

/-- Claim C10: for every crop block that is not ripe, `harvestCrop` is a
complete no-op: the world and the player's inventory are unchanged, no
items are deposited or spawned, and the random tape is untouched. -/
theorem harvestCrop_notRipe_noop (st : WorldState) (cropPos : Pos3)
    (cropData : BlockData) (t : RandTape)
    (h : isCropRipe cropData = false) :
    harvestCrop st cropPos cropData t = (st, [], t) := by
  simp [harvestCrop, h]

/-- Witness for C10 on a wheat block at growth stage 3. -/
theorem harvestCrop_notRipe_noop_witness :
    harvestCrop ⟨[], [], none⟩ ⟨0, 0, 0⟩ ⟨"minecraft:wheat", [("growth", 3)]⟩
        ⟨fun _ => 0, 0⟩ =
      (⟨[], [], none⟩, [], ⟨fun _ => 0, 0⟩) :=
  harvestCrop_notRipe_noop ⟨[], [], none⟩ ⟨0, 0, 0⟩
    ⟨"minecraft:wheat", [("growth", 3)]⟩ ⟨fun _ => 0, 0⟩ (by decide)

/-- Claim C5: when the downward raycast during stacked-plant harvest finds
no support block, the lookup itself logs a warning and returns `undefined`
instead of throwing, and the invocation harvests nothing: the state is
unchanged and no deposit, spawn, or block-type effect is performed (the
only trace entry is the warning; the caller then throws on
`supportBlock.above()`). -/
theorem harvestSugarcane_noSupport (st : WorldState) (blockData : BlockData)
    (playerLocation : Vector3) (t : RandTape) :
    getSupportBlock blockData.typeId none =
      (none, [Effect.warnedNoSupport blockData.typeId]) ∧
    (harvestSugarcane st blockData none playerLocation t).threw = true ∧
    (harvestSugarcane st blockData none playerLocation t).st = st ∧
    (harvestSugarcane st blockData none playerLocation t).effects =
      [Effect.warnedNoSupport blockData.typeId] ∧
    (harvestSugarcane st blockData none playerLocation t).tape = t := by
  refine ⟨rfl, rfl, rfl, rfl, rfl⟩

/-- Witness for C5 at a concrete state. -/
theorem harvestSugarcane_noSupport_witness :
    getSupportBlock (BlockData.mk "minecraft:reeds" []).typeId none =
      (none, [Effect.warnedNoSupport "minecraft:reeds"]) ∧
    (harvestSugarcane ⟨[], [], none⟩ ⟨"minecraft:reeds", []⟩ none ⟨0, 0, 0⟩
      ⟨fun _ => 0, 0⟩).threw = true ∧
    (harvestSugarcane ⟨[], [], none⟩ ⟨"minecraft:reeds", []⟩ none ⟨0, 0, 0⟩
      ⟨fun _ => 0, 0⟩).st = ⟨[], [], none⟩ ∧
    (harvestSugarcane ⟨[], [], none⟩ ⟨"minecraft:reeds", []⟩ none ⟨0, 0, 0⟩
      ⟨fun _ => 0, 0⟩).effects = [Effect.warnedNoSupport "minecraft:reeds"] ∧
    (harvestSugarcane ⟨[], [], none⟩ ⟨"minecraft:reeds", []⟩ none ⟨0, 0, 0⟩
      ⟨fun _ => 0, 0⟩).tape = ⟨fun _ => 0, 0⟩ :=
  harvestSugarcane_noSupport ⟨[], [], none⟩ ⟨"minecraft:reeds", []⟩ ⟨0, 0, 0⟩
    ⟨fun _ => 0, 0⟩

/-- The computed available space is nonnegative on any container satisfying
the host invariant. -/
theorem getAvailableSpace_nonneg (slots : Container) (itemstack : ItemStack)
    (h : MatchWF slots itemstack) :
    0 ≤ getAvailableSpaceForItemStack slots itemstack false := by
  induction slots with
  | nil => simp [getAvailableSpaceForItemStack]
  | cons slot rest ih =>
      have hrest : MatchWF rest itemstack :=
        ⟨h.1, fun s hs hty => h.2 s (List.mem_cons_of_mem _ hs) hty⟩
      have h0 := ih hrest
      cases slot with
      | none =>
          simp only [getAvailableSpaceForItemStack, Bool.false_eq_true,
            if_false]
          have h1 := h.1
          omega
      | some s =>
          simp only [getAvailableSpaceForItemStack]
          by_cases hty : s.typeId = itemstack.typeId
          · have h2 := h.2 s (List.mem_cons_self _ _) hty
            simp only [if_pos hty]
            omega
          · simp only [if_neg hty]
            omega

/-- Claim C4: `giveEntityItems` never deposits more than the computed
available space for the item type; the deposited amount plus the returned
remainder equals the requested amount; and with no container nothing is
deposited and the full amount is returned.  (The hypotheses state the host
invariants every real container and stack satisfy.) -/
theorem giveEntityItems_spec (c : Container) (itemStack : ItemStack)
    (hwf : MatchWF c itemStack) (hamt : 0 ≤ itemStack.amount) :
    addedTotal itemStack.typeId (giveEntityItems (some c) itemStack).effects ≤
      getAvailableSpaceForItemStack c itemStack false ∧
    addedTotal itemStack.typeId (giveEntityItems (some c) itemStack).effects +
      (giveEntityItems (some c) itemStack).remainder = itemStack.amount ∧
    0 ≤ (giveEntityItems (some c) itemStack).remainder ∧
    (giveEntityItems none itemStack).remainder = itemStack.amount ∧
    (giveEntityItems none itemStack).effects = [] := by
  have hsp := getAvailableSpace_nonneg c itemStack hwf
  refine ⟨?_, ?_, ?_, rfl, rfl⟩ <;>
    · simp only [giveEntityItems]
      by_cases hpos : 0 < min itemStack.amount
          (getAvailableSpaceForItemStack c itemStack false)
      · simp only [if_pos hpos, addedTotal]
        simp
      · simp only [if_neg hpos, addedTotal]
        all_goals omega

/-- Witness for C4: a five-item wheat stack given to a one-empty-slot
container. -/
theorem giveEntityItems_spec_witness :
    addedTotal "minecraft:wheat"
        (giveEntityItems (some [none]) ⟨"minecraft:wheat", 5, 64, none⟩).effects ≤
      getAvailableSpaceForItemStack [none] ⟨"minecraft:wheat", 5, 64, none⟩ false ∧
    addedTotal "minecraft:wheat"
        (giveEntityItems (some [none]) ⟨"minecraft:wheat", 5, 64, none⟩).effects +
      (giveEntityItems (some [none]) ⟨"minecraft:wheat", 5, 64, none⟩).remainder = 5 ∧
    0 ≤ (giveEntityItems (some [none]) ⟨"minecraft:wheat", 5, 64, none⟩).remainder ∧
    (giveEntityItems none ⟨"minecraft:wheat", 5, 64, none⟩).remainder = 5 ∧
    (giveEntityItems none ⟨"minecraft:wheat", 5, 64, none⟩).effects = [] :=
  giveEntityItems_spec [none] ⟨"minecraft:wheat", 5, 64, none⟩
    ⟨by norm_num, fun s hs hty => by simp at hs⟩ (by norm_num)

/-- Topping up existing stacks preserves the container invariant. -/
theorem fillExistingStacks_CWF (itemId : String) (c : Container) :
    ∀ q : Int, CWF c → CWF (fillExistingStacks itemId 64 c q).1 := by
  induction c with
  | nil => intro q h; simpa [fillExistingStacks] using h
  | cons slot rest ih =>
      intro q h
      have hrest : CWF rest := fun s hs => h s (List.mem_cons_of_mem _ hs)
      cases slot with
      | none =>
          simp only [fillExistingStacks]
          intro s hs
          rcases List.mem_cons.mp hs with h1 | h1
          · simp at h1
          · exact ih q hrest s h1
      | some s0 =>
          have hs0 := h s0 (List.mem_cons_self _ _)
          by_cases hty : s0.typeId = itemId
          · simp only [fillExistingStacks, if_pos hty]
            intro s hs
            rcases List.mem_cons.mp hs with h1 | h1
            · injection h1 with h2
              subst h2
              dsimp only
              exact ⟨by omega, by omega, hs0.2.2⟩
            · exact ih _ hrest s h1
          · simp only [fillExistingStacks, if_neg hty]
            intro s hs
            rcases List.mem_cons.mp hs with h1 | h1
            · injection h1 with h2
              subst h2
              exact hs0
            · exact ih q hrest s h1

/-- Filling empty slots with new stacks preserves the container invariant. -/
theorem fillEmptySlots_CWF (itemId : String) (c : Container) :
    ∀ q : Int, CWF c → CWF (fillEmptySlots itemId 64 c q).1 := by
  induction c with
  | nil => intro q h; simpa [fillEmptySlots] using h
  | cons slot rest ih =>
      intro q h
      have hrest : CWF rest := fun s hs => h s (List.mem_cons_of_mem _ hs)
      cases slot with
      | none =>
          by_cases hq : 0 < q
          · simp only [fillEmptySlots, if_pos hq]
            intro s hs
            rcases List.mem_cons.mp hs with h1 | h1
            · injection h1 with h2
              subst h2
              dsimp only
              exact ⟨by omega, by omega, rfl⟩
            · exact ih _ hrest s h1
          · simp only [fillEmptySlots, if_neg hq]
            intro s hs
            rcases List.mem_cons.mp hs with h1 | h1
            · simp at h1
            · exact ih q hrest s h1
      | some s0 =>
          have hs0 := h s0 (List.mem_cons_self _ _)
          simp only [fillEmptySlots]
          intro s hs
          rcases List.mem_cons.mp hs with h1 | h1
          · injection h1 with h2
            subst h2
            exact hs0
          · exact ih q hrest s h1

/-- The host `addItem` preserves the container invariant for items that
stack to 64. -/
theorem addItem_CWF (c : Container) (stack : ItemStack)
    (hmx : stack.maxAmount = 64) (h : CWF c) : CWF (addItem c stack) := by
  simp only [addItem, hmx]
  exact fillEmptySlots_CWF _ _ _ (fillExistingStacks_CWF _ _ _ h)

/-- `giveEntityItems` preserves the container invariant. -/
theorem giveEntityItems_CWF (c : Container) (stack : ItemStack)
    (hmx : stack.maxAmount = 64) (h : CWF c) :
    CWF ((giveEntityItems (some c) stack).container.getD c) := by
  simp only [giveEntityItems]
  by_cases hpos :
      0 < min stack.amount (getAvailableSpaceForItemStack c stack false)
  · simp only [if_pos hpos, Option.getD_some]
    exact addItem_CWF _ _ hmx h
  · simp only [if_neg hpos, Option.getD_some]
    exact h

/-- The bonus-trial loop never changes the underlying random tape values,
only the cursor. -/
theorem calculateDropsLoop_vals (n : ℕ) :
    ∀ acc : Int × RandTape, (calculateDropsLoop n acc).2.vals = acc.2.vals := by
  induction n with
  | zero => intro acc; rfl
  | succ m ih =>
      intro acc
      rw [calculateDropsLoop]
      rw [ih]
      rfl

/-- `calculateDrops` never changes the underlying random tape values. -/
theorem calculateDrops_vals (f : Int) (t : RandTape) :
    (calculateDrops f t).2.vals = t.vals := by
  simp only [calculateDrops]
  rw [calculateDropsLoop_vals]
  rfl

/-- The container invariant implies the per-stack invariant for any
requested item that stacks to 64. -/
theorem CWF_MatchWF (c : Container) (stack : ItemStack)
    (hc : CWF c) (hmx : stack.maxAmount = 64) : MatchWF c stack := by
  refine ⟨by omega, fun s hs _ => ?_⟩
  have h1 := hc s hs
  omega

/-- `givenTotal` distributes over trace concatenation. -/
theorem givenTotal_append (itemId : String) (a b : List Effect) :
    givenTotal itemId (a ++ b) =
      givenTotal itemId a + givenTotal itemId b := by
  induction a with
  | nil => simp [givenTotal]
  | cons e rest ih =>
      cases e <;>
        simp only [List.cons_append, givenTotal, List.append_eq, ih] <;> ring

/-- What `giveEntityItems` hands over: the remainder is between 0 and the
requested amount, the trace accounts for exactly the deposited items of the
requested type, and no other item type appears in the trace. -/
theorem giveEntityItems_parts (c : Container) (stack : ItemStack)
    (hwf : MatchWF c stack) (hamt : 0 ≤ stack.amount) :
    0 ≤ (giveEntityItems (some c) stack).remainder ∧
    (giveEntityItems (some c) stack).remainder ≤ stack.amount ∧
    givenTotal stack.typeId (giveEntityItems (some c) stack).effects =
      stack.amount - (giveEntityItems (some c) stack).remainder ∧
    (∀ other, other ≠ stack.typeId →
      givenTotal other (giveEntityItems (some c) stack).effects = 0) := by
  have hsp := getAvailableSpace_nonneg c stack hwf
  simp only [giveEntityItems]
  by_cases hpos :
      0 < min stack.amount (getAvailableSpaceForItemStack c stack false)
  · simp only [if_pos hpos]
    refine ⟨by omega, by omega, ?_, ?_⟩
    · simp only [givenTotal, eq_self_iff_true, if_true, add_zero]
      omega
    · intro other hne
      simp only [givenTotal, add_zero]
      rw [if_neg (fun h => hne h.symm)]
  · simp only [if_neg hpos]
    refine ⟨by omega, by omega, ?_, ?_⟩
    · simp only [givenTotal]
      omega
    · intro other hne
      simp only [givenTotal]

/-- `getDropCount` is `calculateDrops` at the held item's fortune level. -/
theorem getDropCount_eq (scythe : Option ItemStack) (t : RandTape) :
    getDropCount scythe t = calculateDrops (heldFortuneLevel scythe) t := rfl

/-- One drop-id step of `harvestCrop`, for any held tool (or empty hand):
the blocks and held item are untouched, the container invariant is
preserved, the tape values are unchanged, and the appended trace hands out
(container plus world spawn) a total quantity in [1, 4 + 2·cf] for a
non-seed drop id and in [0, 3 + 2·cf] for a seed id (one item withheld for
replanting), where cf is the clamped fortune level of the held item, with
nothing handed out under any other item id. -/
theorem harvestCropDrop_spec (scythe : Option ItemStack) (cropPos : Pos3)
    (st : WorldState) (es : List Effect) (t : RandTape) (itemId : String)
    (hwf : CWF st.inv) (ht : RandWF t.vals) :
    (harvestCropDrop scythe cropPos (st, es, t) itemId).1.blocks = st.blocks ∧
    (harvestCropDrop scythe cropPos (st, es, t) itemId).1.held = st.held ∧
    CWF (harvestCropDrop scythe cropPos (st, es, t) itemId).1.inv ∧
    (harvestCropDrop scythe cropPos (st, es, t) itemId).2.2.vals = t.vals ∧
    ∃ ext : List Effect,
      (harvestCropDrop scythe cropPos (st, es, t) itemId).2.1 = es ++ ext ∧
      (isItemSeed itemId = true →
        0 ≤ givenTotal itemId ext ∧ givenTotal itemId ext ≤
          3 + 2 * max 0 (min (heldFortuneLevel scythe) 3)) ∧
      (isItemSeed itemId = false →
        1 ≤ givenTotal itemId ext ∧ givenTotal itemId ext ≤
          4 + 2 * max 0 (min (heldFortuneLevel scythe) 3)) ∧
      (∀ other, other ≠ itemId → givenTotal other ext = 0) := by
  have hq := calculateDrops_bounds (heldFortuneLevel scythe) t ht
  have hq1 : 1 ≤ (calculateDrops (heldFortuneLevel scythe) t).1 := hq.1
  have hqU : (calculateDrops (heldFortuneLevel scythe) t).1 ≤
      4 + 2 * max 0 (min (heldFortuneLevel scythe) 3) := hq.2.1
  have hvals := calculateDrops_vals (heldFortuneLevel scythe) t
  clear hq
  simp only [harvestCropDrop, getDropCount_eq]
  by_cases hseed : isItemSeed itemId = true
  · -- seed id: one item is withheld
    simp only [hseed, if_true]
    by_cases hdq : 0 < (calculateDrops (heldFortuneLevel scythe) t).1 - 1
    · have hmwf := CWF_MatchWF st.inv
        ⟨itemId, (calculateDrops (heldFortuneLevel scythe) t).1 - 1, 64, none⟩
        hwf rfl
      obtain ⟨hp1, hp2, hp3, hp4⟩ := giveEntityItems_parts st.inv
        ⟨itemId, (calculateDrops (heldFortuneLevel scythe) t).1 - 1, 64, none⟩
        hmwf (by dsimp only; omega)
      have hcwf2 := giveEntityItems_CWF st.inv
        ⟨itemId, (calculateDrops (heldFortuneLevel scythe) t).1 - 1, 64, none⟩
        rfl hwf
      dsimp only at hp1 hp2 hp3 hp4
      simp only [if_pos hdq]
      by_cases hrem : 0 < (giveEntityItems (some st.inv)
          ⟨itemId, (calculateDrops (heldFortuneLevel scythe) t).1 - 1, 64,
            none⟩).remainder
      · simp only [if_pos hrem]
        refine ⟨by trivial, by trivial, hcwf2, hvals, ?_⟩
        refine ⟨(giveEntityItems (some st.inv)
            ⟨itemId, (calculateDrops (heldFortuneLevel scythe) t).1 - 1, 64,
              none⟩).effects ++
          [Effect.spawnedItem cropPos itemId (giveEntityItems (some st.inv)
            ⟨itemId, (calculateDrops (heldFortuneLevel scythe) t).1 - 1, 64,
              none⟩).remainder],
          by rw [List.append_assoc], ?_, ?_, ?_⟩
        · intro _
          rw [givenTotal_append]
          simp only [givenTotal, eq_self_iff_true, if_true, add_zero]
          omega
        · intro hcontra
          exact Bool.noConfusion hcontra
        · intro other hne
          rw [givenTotal_append]
          have h4 := hp4 other hne
          simp only [givenTotal, add_zero]
          rw [if_neg (fun h => hne h.symm)]
          omega
      · simp only [if_neg hrem]
        refine ⟨by trivial, by trivial, hcwf2, hvals, ?_⟩
        refine ⟨(giveEntityItems (some st.inv)
            ⟨itemId, (calculateDrops (heldFortuneLevel scythe) t).1 - 1, 64,
              none⟩).effects,
          rfl, ?_, ?_, ?_⟩
        · intro _
          omega
        · intro hcontra
          exact Bool.noConfusion hcontra
        · intro other hne
          exact hp4 other hne
    · simp only [if_neg hdq]
      refine ⟨by trivial, by trivial, hwf, hvals, [], by simp, ?_, ?_, ?_⟩
      · intro _
        constructor
        · simp [givenTotal]
        · simp only [givenTotal]
          omega
      · intro hcontra
        exact Bool.noConfusion hcontra
      · intro other _
        simp [givenTotal]
  · -- non-seed id: the full rolled quantity is handed out
    have hseedf : isItemSeed itemId = false := by
      cases h : isItemSeed itemId
      · rfl
      · exact absurd h hseed
    simp only [hseedf, Bool.false_eq_true, if_false]
    have hdq : 0 < (calculateDrops (heldFortuneLevel scythe) t).1 := by omega
    have hmwf := CWF_MatchWF st.inv
      ⟨itemId, (calculateDrops (heldFortuneLevel scythe) t).1, 64, none⟩
      hwf rfl
    obtain ⟨hp1, hp2, hp3, hp4⟩ := giveEntityItems_parts st.inv
      ⟨itemId, (calculateDrops (heldFortuneLevel scythe) t).1, 64, none⟩
      hmwf (by dsimp only; omega)
    have hcwf2 := giveEntityItems_CWF st.inv
      ⟨itemId, (calculateDrops (heldFortuneLevel scythe) t).1, 64, none⟩
      rfl hwf
    dsimp only at hp1 hp2 hp3 hp4
    simp only [if_pos hdq]
    by_cases hrem : 0 < (giveEntityItems (some st.inv)
        ⟨itemId, (calculateDrops (heldFortuneLevel scythe) t).1, 64,
          none⟩).remainder
    · simp only [if_pos hrem]
      refine ⟨by trivial, by trivial, hcwf2, hvals, ?_⟩
      refine ⟨(giveEntityItems (some st.inv)
          ⟨itemId, (calculateDrops (heldFortuneLevel scythe) t).1, 64,
            none⟩).effects ++
        [Effect.spawnedItem cropPos itemId (giveEntityItems (some st.inv)
          ⟨itemId, (calculateDrops (heldFortuneLevel scythe) t).1, 64,
            none⟩).remainder],
        by rw [List.append_assoc], ?_, ?_, ?_⟩
      · intro hcontra
        exact hcontra.elim
      · intro _
        rw [givenTotal_append]
        simp only [givenTotal, eq_self_iff_true, if_true, add_zero]
        omega
      · intro other hne
        rw [givenTotal_append]
        have h4 := hp4 other hne
        simp only [givenTotal, add_zero]
        rw [if_neg (fun h => hne h.symm)]
        omega
    · simp only [if_neg hrem]
      refine ⟨by trivial, by trivial, hcwf2, hvals, ?_⟩
      refine ⟨(giveEntityItems (some st.inv)
          ⟨itemId, (calculateDrops (heldFortuneLevel scythe) t).1, 64,
            none⟩).effects,
        rfl, ?_, ?_, ?_⟩
      · intro hcontra
        exact hcontra.elim
      · intro _
        omega
      · intro other hne
        exact hp4 other hne

/-- Folding the drop step over a duplicate-free list of drop ids: the
blocks and held item are untouched, the container invariant is preserved,
the tape values are unchanged, and the appended trace hands out a total in
the fortune-aware bounds for each listed id (seed ids one lower) and
nothing for any id not in the list. -/
theorem harvestCropDrops_fold_spec (scythe : Option ItemStack)
    (cropPos : Pos3) :
    ∀ (ids : List String) (st : WorldState) (es : List Effect) (t : RandTape),
      ids.Nodup → CWF st.inv → RandWF t.vals →
      (ids.foldl (harvestCropDrop scythe cropPos) (st, es, t)).1.blocks =
        st.blocks ∧
      (ids.foldl (harvestCropDrop scythe cropPos) (st, es, t)).1.held =
        st.held ∧
      CWF (ids.foldl (harvestCropDrop scythe cropPos) (st, es, t)).1.inv ∧
      (ids.foldl (harvestCropDrop scythe cropPos) (st, es, t)).2.2.vals =
        t.vals ∧
      ∃ ext : List Effect,
        (ids.foldl (harvestCropDrop scythe cropPos) (st, es, t)).2.1 =
          es ++ ext ∧
        (∀ itemId ∈ ids,
          (isItemSeed itemId = true →
            0 ≤ givenTotal itemId ext ∧ givenTotal itemId ext ≤
              3 + 2 * max 0 (min (heldFortuneLevel scythe) 3)) ∧
          (isItemSeed itemId = false →
            1 ≤ givenTotal itemId ext ∧ givenTotal itemId ext ≤
              4 + 2 * max 0 (min (heldFortuneLevel scythe) 3))) ∧
        (∀ other, other ∉ ids → givenTotal other ext = 0) := by
  intro ids
  induction ids with
  | nil =>
      intro st es t _ hwf _
      exact ⟨rfl, rfl, hwf, rfl, [], by simp, by simp, fun _ _ => rfl⟩
  | cons a rest ih =>
      intro st es t hnd hwf ht
      have hnda : a ∉ rest := (List.nodup_cons.mp hnd).1
      have hndr : rest.Nodup := (List.nodup_cons.mp hnd).2
      have hstep := harvestCropDrop_spec scythe cropPos st es t a hwf ht
      rcases e1 : harvestCropDrop scythe cropPos (st, es, t) a
        with ⟨st1, es1, t1⟩
      rw [e1] at hstep
      dsimp only at hstep
      obtain ⟨hb1, hh1, hc1, hv1, ext1, he1, hs1, hn1, ho1⟩ := hstep
      have hrec := ih st1 es1 t1 hndr hc1 (by rw [hv1]; exact ht)
      obtain ⟨hb2, hh2, hc2, hv2, ext2, he2, hs2, ho2⟩ := hrec
      simp only [List.foldl_cons, e1]
      refine ⟨by rw [hb2, hb1], by rw [hh2, hh1], hc2,
        by rw [hv2, hv1], ext1 ++ ext2, ?_, ?_, ?_⟩
      · rw [he2, he1, List.append_assoc]
      · intro itemId hmem
        rcases List.mem_cons.mp hmem with hmem | hmem
        · subst hmem
          have hz2 : givenTotal itemId ext2 = 0 := ho2 itemId hnda
          constructor
          · intro hsd
            have h1 := hs1 hsd
            rw [givenTotal_append, hz2]
            omega
          · intro hsd
            have h1 := hn1 hsd
            rw [givenTotal_append, hz2]
            omega
        · have hne : itemId ≠ a := fun h => hnda (h ▸ hmem)
          have hz1 : givenTotal itemId ext1 = 0 := ho1 itemId hne
          have h2 := hs2 itemId hmem
          constructor
          · intro hsd
            have h3 := h2.1 hsd
            rw [givenTotal_append, hz1]
            omega
          · intro hsd
            have h3 := h2.2 hsd
            rw [givenTotal_append, hz1]
            omega
      · intro other hnotin
        have hne : other ≠ a := fun h => hnotin (h ▸ List.mem_cons_self a rest)
        have hnr : other ∉ rest := fun h => hnotin (List.mem_cons_of_mem a h)
        rw [givenTotal_append, ho1 other hne, ho2 other hnr]
        omega

/-- Claim C3: for every ripe crop block (wheat, carrots, potatoes, or
beetroot) harvested via `harvestCrop` with any held tool (or empty hand):
for each drop item id of that crop type, a drop quantity is sampled by the
fortune-aware model and handed out (inventory deposit plus world spawn of
whatever does not fit), totalling 1..`4 + 2·cf` for a non-seed id and
0..`3 + 2·cf` for a seed id (one item withheld for the implicit replant),
where `cf` is the held item's clamped fortune level; nothing is handed out
under ids the crop does not drop; and afterwards the crop block's type is
set to its `djc:fake_` variant, as the last host call of the invocation.
In particular a ripe wheat block with an unenchanted tool (cf = 0) yields
wheat in [1, 4], wheat seeds in [0, 3], and the block becomes
`djc:fake_wheat` (the witness instantiates exactly that case). -/
theorem harvestCrop_spec (st : WorldState) (cropPos : Pos3)
    (cropData : BlockData) (t : RandTape)
    (hcrop : isBlockCrop cropData = true)
    (hripe : isCropRipe cropData = true)
    (hwf : CWF st.inv) (ht : RandWF t.vals) :
    (∀ itemId ∈ getCropDropItemId cropData,
      (isItemSeed itemId = true →
        0 ≤ givenTotal itemId (harvestCrop st cropPos cropData t).2.1 ∧
        givenTotal itemId (harvestCrop st cropPos cropData t).2.1 ≤
          3 + 2 * max 0 (min (heldFortuneLevel st.held) 3)) ∧
      (isItemSeed itemId = false →
        1 ≤ givenTotal itemId (harvestCrop st cropPos cropData t).2.1 ∧
        givenTotal itemId (harvestCrop st cropPos cropData t).2.1 ≤
          4 + 2 * max 0 (min (heldFortuneLevel st.held) 3))) ∧
    (∀ other, other ∉ getCropDropItemId cropData →
      givenTotal other (harvestCrop st cropPos cropData t).2.1 = 0) ∧
    blockAt (harvestCrop st cropPos cropData t).1.blocks cropPos =
      some ⟨"djc:fake_" ++ typeIdSuffix cropData.typeId, []⟩ ∧
    ∃ es : List Effect, (harvestCrop st cropPos cropData t).2.1 =
      es ++ [Effect.setTypeEffect cropPos
        ("djc:fake_" ++ typeIdSuffix cropData.typeId)] := by
  have hnd : (getCropDropItemId cropData).Nodup := by
    simp only [isBlockCrop, List.mem_cons, List.not_mem_nil, or_false,
      decide_eq_true_eq] at hcrop
    rcases hcrop with h | h | h | h <;> simp [getCropDropItemId, h]
  have hfold := harvestCropDrops_fold_spec st.held cropPos
    (getCropDropItemId cropData) st [] t hnd hwf ht
  rcases e1 : (getCropDropItemId cropData).foldl
      (harvestCropDrop st.held cropPos) (st, [], t) with ⟨st1, es1, t1⟩
  rw [e1] at hfold
  dsimp only at hfold
  obtain ⟨hb1, hh1, hc1, hv1, ext, he1, hbounds, hother⟩ := hfold
  rw [List.nil_append] at he1
  simp only [harvestCrop, hripe, Bool.true_eq_false, if_false, e1]
  refine ⟨?_, ?_, by simp [blockAt, setType], ⟨es1, rfl⟩⟩
  · intro itemId hmem
    have h2 := hbounds itemId hmem
    rw [he1]
    constructor
    · intro hsd
      have h3 := h2.1 hsd
      rw [givenTotal_append]
      simp only [givenTotal]
      omega
    · intro hsd
      have h3 := h2.2 hsd
      rw [givenTotal_append]
      simp only [givenTotal]
      omega
  · intro other hnotin
    rw [he1, givenTotal_append, hother other hnotin]
    simp [givenTotal]

/-- Witness for C3: a ripe wheat block, an unenchanted wooden scythe in
hand (clamped fortune 0), one empty inventory slot, and an all-zeros
random tape. -/
theorem harvestCrop_spec_witness :
    (∀ itemId ∈ getCropDropItemId ⟨"minecraft:wheat", [("growth", 7)]⟩,
      (isItemSeed itemId = true →
        0 ≤ givenTotal itemId
          (harvestCrop ⟨[], [none], some ⟨"djc:wooden_scythe", 1, 1, none⟩⟩
            ⟨0, 0, 0⟩ ⟨"minecraft:wheat", [("growth", 7)]⟩
            ⟨fun _ => 0, 0⟩).2.1 ∧
        givenTotal itemId
          (harvestCrop ⟨[], [none], some ⟨"djc:wooden_scythe", 1, 1, none⟩⟩
            ⟨0, 0, 0⟩ ⟨"minecraft:wheat", [("growth", 7)]⟩
            ⟨fun _ => 0, 0⟩).2.1 ≤
          3 + 2 * max 0 (min (heldFortuneLevel
            (WorldState.mk [] [none]
              (some ⟨"djc:wooden_scythe", 1, 1, none⟩)).held) 3)) ∧
      (isItemSeed itemId = false →
        1 ≤ givenTotal itemId
          (harvestCrop ⟨[], [none], some ⟨"djc:wooden_scythe", 1, 1, none⟩⟩
            ⟨0, 0, 0⟩ ⟨"minecraft:wheat", [("growth", 7)]⟩
            ⟨fun _ => 0, 0⟩).2.1 ∧
        givenTotal itemId
          (harvestCrop ⟨[], [none], some ⟨"djc:wooden_scythe", 1, 1, none⟩⟩
            ⟨0, 0, 0⟩ ⟨"minecraft:wheat", [("growth", 7)]⟩
            ⟨fun _ => 0, 0⟩).2.1 ≤
          4 + 2 * max 0 (min (heldFortuneLevel
            (WorldState.mk [] [none]
              (some ⟨"djc:wooden_scythe", 1, 1, none⟩)).held) 3))) ∧
    (∀ other, other ∉ getCropDropItemId ⟨"minecraft:wheat", [("growth", 7)]⟩ →
      givenTotal other
        (harvestCrop ⟨[], [none], some ⟨"djc:wooden_scythe", 1, 1, none⟩⟩
          ⟨0, 0, 0⟩ ⟨"minecraft:wheat", [("growth", 7)]⟩
          ⟨fun _ => 0, 0⟩).2.1 = 0) ∧
    blockAt
      (harvestCrop ⟨[], [none], some ⟨"djc:wooden_scythe", 1, 1, none⟩⟩
        ⟨0, 0, 0⟩ ⟨"minecraft:wheat", [("growth", 7)]⟩
        ⟨fun _ => 0, 0⟩).1.blocks ⟨0, 0, 0⟩ =
      some ⟨"djc:fake_" ++ typeIdSuffix "minecraft:wheat", []⟩ ∧
    ∃ es : List Effect,
      (harvestCrop ⟨[], [none], some ⟨"djc:wooden_scythe", 1, 1, none⟩⟩
        ⟨0, 0, 0⟩ ⟨"minecraft:wheat", [("growth", 7)]⟩
        ⟨fun _ => 0, 0⟩).2.1 =
      es ++ [Effect.setTypeEffect ⟨0, 0, 0⟩
        ("djc:fake_" ++ typeIdSuffix "minecraft:wheat")] :=
  harvestCrop_spec ⟨[], [none], some ⟨"djc:wooden_scythe", 1, 1, none⟩⟩
    ⟨0, 0, 0⟩ ⟨"minecraft:wheat", [("growth", 7)]⟩ ⟨fun _ => 0, 0⟩
    (by decide) (by decide)
    (fun s hs => by simp at hs) (fun _ => by norm_num)

/-- The upward march of `getStackedPlant`: over a run of `m` matching
blocks starting at `y0`, with enough fuel and a stop (fuel exhausted
exactly, or a non-matching/missing block) right after the run, the walk
returns exactly the `m` positions of the run, bottom first. -/
theorem stackedPlantWalk_spec (w : WorldBlocks) (id : String) (x z : Int) :
    ∀ (m : ℕ) (y0 : Int) (fuel : ℕ),
      (∀ k : ℕ, k < m → ∃ b : BlockData,
        blockAt w ⟨x, y0 + k, z⟩ = some b ∧ b.typeId = id) →
      m ≤ fuel →
      (fuel = m ∨ ∀ b : BlockData, blockAt w ⟨x, y0 + m, z⟩ = some b →
        b.typeId ≠ id) →
      stackedPlantWalk w id x z y0 fuel =
        (List.range m).map (fun k => ⟨x, y0 + k, z⟩) := by
  intro m
  induction m with
  | zero =>
      intro y0 fuel _ _ hstop
      rcases hstop with h | h
      · subst h
        rfl
      · cases fuel with
        | zero => rfl
        | succ f =>
            simp only [Nat.cast_zero, add_zero] at h
            simp only [stackedPlantWalk]
            cases hb : blockAt w ⟨x, y0, z⟩ with
            | none => simp
            | some b => simp [h b hb]
  | succ m ih =>
      intro y0 fuel hcol hfuel hstop
      cases fuel with
      | zero => omega
      | succ f =>
          obtain ⟨b0, hb0, hbid⟩ := hcol 0 (Nat.succ_pos m)
          simp only [Nat.cast_zero, add_zero] at hb0
          have hshift : ∀ k : ℕ,
              (⟨x, y0 + 1 + k, z⟩ : Pos3) = ⟨x, y0 + (k + 1 : ℕ), z⟩ := by
            intro k
            congr 1
            push_cast
            ring
          have hcol2 : ∀ k : ℕ, k < m → ∃ b : BlockData,
              blockAt w ⟨x, y0 + 1 + k, z⟩ = some b ∧ b.typeId = id := by
            intro k hk
            rw [hshift k]
            exact hcol (k + 1) (by omega)
          have hstop2 : f = m ∨ ∀ b : BlockData,
              blockAt w ⟨x, y0 + 1 + m, z⟩ = some b → b.typeId ≠ id := by
            rcases hstop with h | h
            · left; omega
            · right
              rw [hshift m]
              exact h
          have hrec := ih (y0 + 1) f hcol2 (by omega) hstop2
          simp only [stackedPlantWalk, hb0, hbid, eq_self_iff_true, if_true]
          rw [hrec, List.range_succ_eq_map]
          simp only [List.map_cons, List.map_map, Nat.cast_zero, add_zero]
          refine congrArg _ ?_
          apply List.map_congr_left
          intro k _
          simp only [Function.comp_apply]
          exact hshift k

/-- Claim C1 (amended): for a vertical column of `n ≥ 1` same-typed plant
blocks whose topmost block stays within the maximum build height (319),
stacked-plant column discovery starting from the column's bottom tile
returns the `n - 1` blocks of the column strictly above the bottom tile
(the bottom tile itself is not collected), ordered from the bottom of the
column upward. -/
theorem getStackedPlant_column (w : WorldBlocks) (pos : Pos3)
    (bottomData : BlockData) (n : ℕ)
    (hn : 1 ≤ n)
    (_hbot : blockAt w pos = some bottomData)
    (hcol : ∀ k : ℕ, k < n → ∃ b : BlockData,
      blockAt w ⟨pos.x, pos.y + k, pos.z⟩ = some b ∧
      b.typeId = bottomData.typeId)
    (htop : pos.y + ((n : Int) - 1) ≤ 319)
    (hstop : pos.y + (n : Int) ≤ 319 → ∀ b : BlockData,
      blockAt w ⟨pos.x, pos.y + (n : Int), pos.z⟩ = some b →
      b.typeId ≠ bottomData.typeId) :
    getStackedPlant w pos bottomData =
      (List.range (n - 1)).map
        (fun k => ⟨pos.x, pos.y + 1 + k, pos.z⟩) ∧
    (getStackedPlant w pos bottomData).length = n - 1 := by
  have hshift : ∀ k : ℕ,
      (⟨pos.x, pos.y + 1 + k, pos.z⟩ : Pos3) =
        ⟨pos.x, pos.y + (k + 1 : ℕ), pos.z⟩ := by
    intro k
    congr 1
    push_cast
    ring
  have hmain : getStackedPlant w pos bottomData =
      (List.range (n - 1)).map (fun k => ⟨pos.x, pos.y + 1 + k, pos.z⟩) := by
    apply stackedPlantWalk_spec
    · intro k hk
      rw [hshift k]
      exact hcol (k + 1) (by omega)
    · omega
    · by_cases hin : pos.y + n ≤ 319
      · right
        have heq : (⟨pos.x, pos.y + 1 + (n - 1 : ℕ), pos.z⟩ : Pos3) =
            ⟨pos.x, pos.y + n, pos.z⟩ := by
          congr 1
          omega
        rw [heq]
        exact hstop hin
      · left
        omega
  exact ⟨hmain, by rw [hmain]; simp⟩

/-- Witness for the amended C1 on a concrete three-block sugarcane column
at the world origin: the walk returns the two blocks above the bottom
tile. -/
theorem getStackedPlant_column_witness :
    getStackedPlant
        [(⟨0, 0, 0⟩, ⟨"minecraft:reeds", []⟩),
         (⟨0, 1, 0⟩, ⟨"minecraft:reeds", []⟩),
         (⟨0, 2, 0⟩, ⟨"minecraft:reeds", []⟩)]
        ⟨0, 0, 0⟩ ⟨"minecraft:reeds", []⟩ =
      (List.range (3 - 1)).map (fun k => ⟨0, 0 + 1 + k, 0⟩) ∧
    (getStackedPlant
        [(⟨0, 0, 0⟩, ⟨"minecraft:reeds", []⟩),
         (⟨0, 1, 0⟩, ⟨"minecraft:reeds", []⟩),
         (⟨0, 2, 0⟩, ⟨"minecraft:reeds", []⟩)]
        ⟨0, 0, 0⟩ ⟨"minecraft:reeds", []⟩).length = 3 - 1 :=
  getStackedPlant_column
    [(⟨0, 0, 0⟩, ⟨"minecraft:reeds", []⟩),
     (⟨0, 1, 0⟩, ⟨"minecraft:reeds", []⟩),
     (⟨0, 2, 0⟩, ⟨"minecraft:reeds", []⟩)]
    ⟨0, 0, 0⟩ ⟨"minecraft:reeds", []⟩ 3 (by norm_num) rfl
    (fun k hk => by
      interval_cases k <;> exact ⟨⟨"minecraft:reeds", []⟩, rfl, rfl⟩)
    (by norm_num)
    (fun _ b hb => by simp [blockAt] at hb)

/-- Counterexample to C1 as stated: in a world holding a two-block
sugarcane column (and nothing else), discovery from the bottom tile
returns one block, not the claimed two. -/
theorem getStackedPlant_cex :
    blockAt [(⟨0, 0, 0⟩, ⟨"minecraft:reeds", []⟩),
        (⟨0, 1, 0⟩, ⟨"minecraft:reeds", []⟩)] ⟨0, 0, 0⟩ =
      some ⟨"minecraft:reeds", []⟩ ∧
    blockAt [(⟨0, 0, 0⟩, ⟨"minecraft:reeds", []⟩),
        (⟨0, 1, 0⟩, ⟨"minecraft:reeds", []⟩)] ⟨0, 1, 0⟩ =
      some ⟨"minecraft:reeds", []⟩ ∧
    blockAt [(⟨0, 0, 0⟩, ⟨"minecraft:reeds", []⟩),
        (⟨0, 1, 0⟩, ⟨"minecraft:reeds", []⟩)] ⟨0, 2, 0⟩ = none ∧
    getStackedPlant [(⟨0, 0, 0⟩, ⟨"minecraft:reeds", []⟩),
        (⟨0, 1, 0⟩, ⟨"minecraft:reeds", []⟩)] ⟨0, 0, 0⟩
        ⟨"minecraft:reeds", []⟩ = [⟨0, 1, 0⟩] ∧
    (getStackedPlant [(⟨0, 0, 0⟩, ⟨"minecraft:reeds", []⟩),
        (⟨0, 1, 0⟩, ⟨"minecraft:reeds", []⟩)] ⟨0, 0, 0⟩
        ⟨"minecraft:reeds", []⟩).length ≠ 2 := by
  refine ⟨by decide, by decide, by decide, by decide, by decide⟩

/-- With `arcWidth = 0`, the angle loop runs once, at angle 0. -/
theorem sweepAngles_zero : sweepAngles 0 = [0] := by
  have h0 : (⌊(0 : ℚ)⌋ + 1).toNat = 1 := by norm_num
  rw [sweepAngles, h0]
  norm_num [List.range_succ]

/-- A unit-length horizontal direction cannot round to the zero offset in
both coordinates (JavaScript `Math.round` rounds half up). -/
theorem jsRound_ne_zero_pair (a b : ℚ) (h : a ^ 2 + b ^ 2 = 1) :
    ¬ (jsRound a = 0 ∧ jsRound b = 0) := by
  rintro ⟨ha, hb⟩
  rw [jsRound, Int.floor_eq_zero_iff, Set.mem_Ico] at ha hb
  obtain ⟨ha1, ha2⟩ := ha
  obtain ⟨hb1, hb2⟩ := hb
  have h1 : (0 : ℚ) ≤ (a + 1 / 2) * (1 / 2 - a) :=
    mul_nonneg (by linarith) (by linarith)
  have h2 : (0 : ℚ) ≤ (b + 1 / 2) * (1 / 2 - b) :=
    mul_nonneg (by linarith) (by linarith)
  nlinarith [h1, h2]

/-- Claim C6: for a player whose horizontal facing direction is
well-defined (normalization produced a unit vector), the block sweep with
`arcWidth = 0` and `arcRange = 1` returns exactly three cells with no
duplicate coordinates: the forward cell at foot level, the same cell one
level above, and the cell directly above the actor; with `arcRange = 0` it
returns only the above-actor cell. -/
theorem getBlocksInSweep_spec (m : JsMathLib)
    (playerLocation viewDirection : Vector3) (mag : ℚ)
    (hmag : m.sqrtFn (viewDirection.x ^ 2 + viewDirection.z ^ 2) = mag)
    (hcos : m.cosFn 0 = 1) (hsin : m.sinFn 0 = 0)
    (hunit : (viewDirection.x / mag) ^ 2 + (viewDirection.z / mag) ^ 2 = 1) :
    getBlocksInSweep m playerLocation viewDirection 0 1 =
      [⟨⌊playerLocation.x⌋ + jsRound (viewDirection.x / mag),
          ⌊playerLocation.y⌋,
          ⌊playerLocation.z⌋ + jsRound (viewDirection.z / mag)⟩,
        ⟨⌊playerLocation.x⌋ + jsRound (viewDirection.x / mag),
          ⌊playerLocation.y⌋ + 1,
          ⌊playerLocation.z⌋ + jsRound (viewDirection.z / mag)⟩,
        ⟨⌊playerLocation.x⌋, ⌊playerLocation.y⌋ + 1, ⌊playerLocation.z⌋⟩] ∧
    (getBlocksInSweep m playerLocation viewDirection 0 1).length = 3 ∧
    (getBlocksInSweep m playerLocation viewDirection 0 1).Nodup ∧
    getBlocksInSweep m playerLocation viewDirection 0 0 =
      [⟨⌊playerLocation.x⌋, ⌊playerLocation.y⌋ + 1, ⌊playerLocation.z⌋⟩] := by
  have hne := jsRound_ne_zero_pair _ _ hunit
  have habove : getBlock (addVectors playerLocation ⟨0, 1, 0⟩) =
      (⟨⌊playerLocation.x⌋, ⌊playerLocation.y⌋ + 1, ⌊playerLocation.z⌋⟩ :
        Pos3) := by
    simp [getBlock, addVectors, Int.floor_add_one]
  have hlist : getBlocksInSweep m playerLocation viewDirection 0 1 =
      [⟨⌊playerLocation.x⌋ + jsRound (viewDirection.x / mag),
          ⌊playerLocation.y⌋,
          ⌊playerLocation.z⌋ + jsRound (viewDirection.z / mag)⟩,
        ⟨⌊playerLocation.x⌋ + jsRound (viewDirection.x / mag),
          ⌊playerLocation.y⌋ + 1,
          ⌊playerLocation.z⌋ + jsRound (viewDirection.z / mag)⟩,
        ⟨⌊playerLocation.x⌋, ⌊playerLocation.y⌋ + 1, ⌊playerLocation.z⌋⟩] := by
    have hr1 : List.range 1 = [0] := rfl
    simp only [getBlocksInSweep, hr1, sweepAngles_zero, hmag,
      List.foldl_cons, List.foldl_nil, zero_mul, hcos, hsin, mul_one,
      mul_zero, sub_zero, zero_add, add_zero, Nat.cast_zero, habove]
    norm_num [List.contains]
  have hzero : getBlocksInSweep m playerLocation viewDirection 0 0 =
      [⟨⌊playerLocation.x⌋, ⌊playerLocation.y⌋ + 1, ⌊playerLocation.z⌋⟩] := by
    simp only [getBlocksInSweep, List.range_zero, List.foldl_nil,
      List.nil_append, habove]
  refine ⟨hlist, by rw [hlist]; rfl, ?_, hzero⟩
  rw [hlist]
  refine List.nodup_cons.mpr ⟨?_, List.nodup_cons.mpr
    ⟨?_, List.nodup_singleton _⟩⟩
  · intro hmem
    rcases List.mem_cons.mp hmem with h | h
    · have hy := congrArg Pos3.y h
      dsimp only at hy
      omega
    · have h2 := List.mem_singleton.mp h
      have hy := congrArg Pos3.y h2
      dsimp only at hy
      omega
  · intro hmem
    have h2 := List.mem_singleton.mp hmem
    have hx := congrArg Pos3.x h2
    have hz := congrArg Pos3.z h2
    dsimp only at hx hz
    exact hne ⟨by omega, by omega⟩

/-- Witness for C6: the player stands at the origin looking along +x, with
an exact host math library for these inputs. -/
theorem getBlocksInSweep_spec_witness :
    getBlocksInSweep ⟨355 / 113, fun _ => 1, fun _ => 0, fun _ => 1⟩
        ⟨0, 0, 0⟩ ⟨1, 0, 0⟩ 0 1 =
      [⟨⌊(0 : ℚ)⌋ + jsRound (1 / 1), ⌊(0 : ℚ)⌋, ⌊(0 : ℚ)⌋ + jsRound (0 / 1)⟩,
        ⟨⌊(0 : ℚ)⌋ + jsRound (1 / 1), ⌊(0 : ℚ)⌋ + 1,
          ⌊(0 : ℚ)⌋ + jsRound (0 / 1)⟩,
        ⟨⌊(0 : ℚ)⌋, ⌊(0 : ℚ)⌋ + 1, ⌊(0 : ℚ)⌋⟩] ∧
    (getBlocksInSweep ⟨355 / 113, fun _ => 1, fun _ => 0, fun _ => 1⟩
        ⟨0, 0, 0⟩ ⟨1, 0, 0⟩ 0 1).length = 3 ∧
    (getBlocksInSweep ⟨355 / 113, fun _ => 1, fun _ => 0, fun _ => 1⟩
        ⟨0, 0, 0⟩ ⟨1, 0, 0⟩ 0 1).Nodup ∧
    getBlocksInSweep ⟨355 / 113, fun _ => 1, fun _ => 0, fun _ => 1⟩
        ⟨0, 0, 0⟩ ⟨1, 0, 0⟩ 0 0 =
      [⟨⌊(0 : ℚ)⌋, ⌊(0 : ℚ)⌋ + 1, ⌊(0 : ℚ)⌋⟩] :=
  getBlocksInSweep_spec ⟨355 / 113, fun _ => 1, fun _ => 0, fun _ => 1⟩
    ⟨0, 0, 0⟩ ⟨1, 0, 0⟩ 1 rfl rfl rfl (by norm_num)

end Scythes
